import Mathlib

/-!
Shallow embedding of the invoice document-parser core:
the in-memory repository (`MemStorage` in src/server/storage.ts), the HTTP
route handlers over it (registerRoutes), the background processing pipeline
(src/server/services/fileProcessor.ts together with the response validation
of src/server/services/openai.ts), and the keyboard review-queue navigator
(useKeyboardNavigation).  Timestamps (`createdAt`/`updatedAt`) and the raw
byte-level encoding work are elided: no verified property mentions them; the
fallible encoding and extraction collaborators are modelled as environment
parameters that either yield a value or fail, exactly at the points where the
source can throw.
-/

namespace DocParser

/-- Document status enum of the `invoices` table. -/
inductive InvStatus
  | uploading
  | processing
  | ready_for_review
  | approved
  | rejected
deriving DecidableEq, Repr

/-- Chunk status enum of the `chunks` table. -/
inductive ChStatus
  | pending
  | approved
  | rejected
  | editing
deriving DecidableEq, Repr

/-- Bounding box `\x7bx, y, width, height\x7d` (percentages). -/
structure BBox where
  x : Int
  y : Int
  width : Int
  height : Int
deriving DecidableEq, Repr

/-- Extracted field data: an ordered mapping of field name to value
(models the `jsonb` objects the extraction service returns). -/
abbrev FieldMap := List (String × String)

/-- An invoice row (`Invoice` in shared/schema.ts); timestamps elided. -/
structure Invoice where
  id : Nat
  filename : String
  mimeType : String
  fileSize : Nat
  status : InvStatus
  extractedText : Option String
  processingProgress : Nat
  totalChunks : Nat
  approvedChunks : Nat
  rejectedChunks : Nat
deriving DecidableEq, Repr

/-- A chunk row (`Chunk` in shared/schema.ts); timestamps elided. -/
structure Chunk where
  id : Nat
  invoiceId : Nat
  chunkType : String
  sequenceNumber : Nat
  title : String
  extractedData : FieldMap
  boundingBox : BBox
  confidence : Rat
  status : ChStatus
  isEdited : Bool
  originalData : Option FieldMap
deriving DecidableEq, Repr

/-- `InsertInvoice`: the invoice fields a caller may supply; `none` models an
omitted (undefined) field, defaulted by `createInvoice`. -/
structure InsertInvoice where
  filename : String
  mimeType : String
  fileSize : Nat
  status : Option InvStatus := none
  extractedText : Option String := none
  processingProgress : Option Nat := none
  totalChunks : Option Nat := none
  approvedChunks : Option Nat := none
  rejectedChunks : Option Nat := none

/-- `InsertChunk`: the chunk fields a caller may supply. -/
structure InsertChunk where
  invoiceId : Nat
  chunkType : String
  sequenceNumber : Nat
  title : String
  extractedData : FieldMap
  boundingBox : BBox
  confidence : Rat
  status : Option ChStatus := none
  isEdited : Option Bool := none
  originalData : Option FieldMap := none

/-- `Partial<Invoice>` as used by `storage.updateInvoice`: each field is
either absent (`none`) or a replacement value. -/
structure InvoiceUpdates where
  status : Option InvStatus := none
  extractedText : Option (Option String) := none
  processingProgress : Option Nat := none
  totalChunks : Option Nat := none
  approvedChunks : Option Nat := none
  rejectedChunks : Option Nat := none

/-- The editable chunk fields of an `UpdateChunk` payload (PATCH body).
The review client's save-edit sends `extractedData`, `isEdited`, `status`. -/
structure ChunkUpdates where
  chunkType : Option String := none
  title : Option String := none
  extractedData : Option FieldMap := none
  boundingBox : Option BBox := none
  confidence : Option Rat := none
  status : Option ChStatus := none
  isEdited : Option Bool := none
  originalData : Option (Option FieldMap) := none

/-- Spreading a `Partial<Invoice>` over an invoice (`\x7b ...invoice, ...updates \x7d`). -/
def applyInvoiceUpdates (inv : Invoice) (u : InvoiceUpdates) : Invoice :=
  { inv with
    status := u.status.getD inv.status
    extractedText := u.extractedText.getD inv.extractedText
    processingProgress := u.processingProgress.getD inv.processingProgress
    totalChunks := u.totalChunks.getD inv.totalChunks
    approvedChunks := u.approvedChunks.getD inv.approvedChunks
    rejectedChunks := u.rejectedChunks.getD inv.rejectedChunks }

/-- Spreading an `UpdateChunk` payload over a chunk (`\x7b ...chunk, ...updates \x7d`). -/
def applyChunkUpdates (c : Chunk) (u : ChunkUpdates) : Chunk :=
  { c with
    chunkType := u.chunkType.getD c.chunkType
    title := u.title.getD c.title
    extractedData := u.extractedData.getD c.extractedData
    boundingBox := u.boundingBox.getD c.boundingBox
    confidence := u.confidence.getD c.confidence
    status := u.status.getD c.status
    isEdited := u.isEdited.getD c.isEdited
    originalData := u.originalData.getD c.originalData }

/-- `Map.set` for an id-keyed collection kept in insertion order: replace the
entry with the given key, or append if absent. -/
def mapSet (key : α → Nat) : List α → Nat → α → List α
  | [], _, v => [v]
  | x :: rest, id, v => if key x == id then v :: rest else x :: mapSet key rest id v

/-- `Map.get` for an id-keyed collection. -/
def mapGet (key : α → Nat) (l : List α) (id : Nat) : Option α :=
  l.find? (fun x => key x == id)

/-- `MemStorage`: the two in-memory maps, in insertion order, plus a counter
standing in for `randomUUID` (each generated id is fresh). -/
structure Storage where
  invoices : List Invoice
  chunks : List Chunk
  nextId : Nat
deriving DecidableEq, Repr

/-- The storage a fresh `MemStorage()` starts from. -/
def initialStorage : Storage := { invoices := [], chunks := [], nextId := 0 }

/-- `MemStorage.createInvoice`: fresh id, defaults applied with `??`. -/
def Storage.createInvoice (s : Storage) (ins : InsertInvoice) : Invoice × Storage :=
  let inv : Invoice :=
    { id := s.nextId
      filename := ins.filename
      mimeType := ins.mimeType
      fileSize := ins.fileSize
      status := ins.status.getD InvStatus.uploading
      extractedText := ins.extractedText
      processingProgress := ins.processingProgress.getD 0
      totalChunks := ins.totalChunks.getD 0
      approvedChunks := ins.approvedChunks.getD 0
      rejectedChunks := ins.rejectedChunks.getD 0 }
  (inv, { s with invoices := s.invoices ++ [inv], nextId := s.nextId + 1 })

/-- `MemStorage.getInvoice`. -/
def Storage.getInvoice (s : Storage) (id : Nat) : Option Invoice :=
  mapGet Invoice.id s.invoices id

/-- `MemStorage.updateInvoice`: merge updates into the stored invoice;
`none` (undefined invoice) leaves the store untouched. -/
def Storage.updateInvoice (s : Storage) (id : Nat) (u : InvoiceUpdates) :
    Option Invoice × Storage :=
  match mapGet Invoice.id s.invoices id with
  | none => (none, s)
  | some inv =>
    let updated := applyInvoiceUpdates inv u
    (some updated, { s with invoices := mapSet Invoice.id s.invoices id updated })

/-- `MemStorage.createChunk`: fresh id, defaults applied with `??`. -/
def Storage.createChunk (s : Storage) (ins : InsertChunk) : Chunk × Storage :=
  let c : Chunk :=
    { id := s.nextId
      invoiceId := ins.invoiceId
      chunkType := ins.chunkType
      sequenceNumber := ins.sequenceNumber
      title := ins.title
      extractedData := ins.extractedData
      boundingBox := ins.boundingBox
      confidence := ins.confidence
      status := ins.status.getD ChStatus.pending
      isEdited := ins.isEdited.getD false
      originalData := ins.originalData }
  (c, { s with chunks := s.chunks ++ [c], nextId := s.nextId + 1 })

/-- `MemStorage.getChunk`. -/
def Storage.getChunk (s : Storage) (id : Nat) : Option Chunk :=
  mapGet Chunk.id s.chunks id

/-- Comparator used by `getChunksByInvoice`: sort ascending by `sequenceNumber`. -/
def seqLe (a b : Chunk) : Prop := a.sequenceNumber ≤ b.sequenceNumber

instance : DecidableRel seqLe := fun a b => Nat.decLe a.sequenceNumber b.sequenceNumber

/-- `MemStorage.getChunksByInvoice`: filter by owning invoice, sort by
`sequenceNumber`. -/
def Storage.getChunksByInvoice (s : Storage) (invoiceId : Nat) : List Chunk :=
  (s.chunks.filter (fun c => c.invoiceId == invoiceId)).insertionSort seqLe

/-- `MemStorage.updateChunk`: merge an `UpdateChunk` payload into the stored
chunk. -/
def Storage.updateChunk (s : Storage) (id : Nat) (u : ChunkUpdates) :
    Option Chunk × Storage :=
  match mapGet Chunk.id s.chunks id with
  | none => (none, s)
  | some c =>
    let updated := applyChunkUpdates c u
    (some updated, { s with chunks := mapSet Chunk.id s.chunks id updated })

/-- `MemStorage.updateChunkStatus`: overwrite just the status. -/
def Storage.updateChunkStatus (s : Storage) (id : Nat) (st : ChStatus) :
    Option Chunk × Storage :=
  match mapGet Chunk.id s.chunks id with
  | none => (none, s)
  | some c =>
    let updated : Chunk := { c with status := st }
    (some updated, { s with chunks := mapSet Chunk.id s.chunks id updated })

/-! ### Route handlers (registerRoutes) -/

/-- `chunks.filter(c => c.status === 'approved').length` over the owning
invoice's chunk list, as recomputed by the approve/reject/update routes. -/
def approvedCountOf (s : Storage) (invoiceId : Nat) : Nat :=
  ((s.getChunksByInvoice invoiceId).filter (fun c => c.status == ChStatus.approved)).length

/-- `chunks.filter(c => c.status === 'rejected').length` likewise. -/
def rejectedCountOf (s : Storage) (invoiceId : Nat) : Nat :=
  ((s.getChunksByInvoice invoiceId).filter (fun c => c.status == ChStatus.rejected)).length

/-- The stats-update block the approve, reject and update routes each inline:
re-derive both counts by scanning the invoice's chunks and write them back. -/
def recomputeStats (s : Storage) (invoiceId : Nat) : Storage :=
  (s.updateInvoice invoiceId
    { approvedChunks := some (approvedCountOf s invoiceId)
      rejectedChunks := some (rejectedCountOf s invoiceId) }).2

/-- `POST /api/chunks/:id/approve`: set the chunk status to approved
(404 → `none`, store untouched), then recompute the owner's counts. -/
def approveChunkRoute (s : Storage) (chunkId : Nat) : Option Chunk × Storage :=
  match s.updateChunkStatus chunkId ChStatus.approved with
  | (none, s1) => (none, s1)
  | (some c, s1) => (some c, recomputeStats s1 c.invoiceId)

/-- `POST /api/chunks/:id/reject`. -/
def rejectChunkRoute (s : Storage) (chunkId : Nat) : Option Chunk × Storage :=
  match s.updateChunkStatus chunkId ChStatus.rejected with
  | (none, s1) => (none, s1)
  | (some c, s1) => (some c, recomputeStats s1 c.invoiceId)

/-- `PATCH /api/chunks/:id`: merge the payload; counts are recomputed only
when the request body carried a `status` field. -/
def patchChunkRoute (s : Storage) (chunkId : Nat) (u : ChunkUpdates) :
    Option Chunk × Storage :=
  match s.updateChunk chunkId u with
  | (none, s1) => (none, s1)
  | (some c, s1) =>
    (some c, if u.status.isSome then recomputeStats s1 c.invoiceId else s1)

/-- The save-edit payload the review client sends for a chunk edit:
`\x7b extractedData: updatedData, isEdited: true, status: 'pending' \x7d`. -/
def saveEditPayload (newData : FieldMap) : ChunkUpdates :=
  { extractedData := some newData, isEdited := some true, status := some ChStatus.pending }

/-- Outcome of the finalize route. -/
inductive FinalizeResult
  | validationError
  | notFound
  | ok (invoice : Invoice)
deriving DecidableEq, Repr

/-- `POST /api/invoices/:id/finalize`: reject the call while any chunk is
pending or editing; otherwise set the invoice status to rejected when some
chunk is rejected and to approved otherwise. -/
def finalizeInvoiceRoute (s : Storage) (id : Nat) : FinalizeResult × Storage :=
  let chunks := s.getChunksByInvoice id
  let hasRejectedChunks := chunks.any (fun c => c.status == ChStatus.rejected)
  let allChunksReviewed :=
    chunks.all (fun c => c.status != ChStatus.pending && c.status != ChStatus.editing)
  if !allChunksReviewed then (FinalizeResult.validationError, s)
  else
    let finalStatus := if hasRejectedChunks then InvStatus.rejected else InvStatus.approved
    match s.updateInvoice id { status := some finalStatus } with
    | (none, s1) => (FinalizeResult.notFound, s1)
    | (some inv, s1) => (FinalizeResult.ok inv, s1)

/-! ### Extraction collaborator (openai.ts) -/

/-- One entry of the extraction result (`ExtractedChunk`). -/
structure ExtractedChunk where
  type : String
  title : String
  data : FieldMap
  boundingBox : BBox
  confidence : Rat
deriving DecidableEq, Repr

/-- The validated extraction payload (`ParsedInvoiceData`). -/
structure ParsedInvoiceData where
  chunks : List ExtractedChunk
  extractedText : Option String
deriving DecidableEq, Repr

/-- Shape of the `chunks` field of the raw model response. -/
inductive RawChunksField
  | missing
  | notArray
  | arr (entries : List ExtractedChunk)
deriving DecidableEq, Repr

/-- The raw model response as far as `parseInvoiceWithVision` inspects it. -/
structure RawVisionResult where
  chunksField : RawChunksField
  extractedText : Option String
deriving DecidableEq, Repr

/-- `parseInvoiceWithVision`: an API-level failure (`none` input) or a raw
result whose `chunks` field is missing or not an array raises; otherwise the
chunk list is passed through and `extractedText` is defaulted to `""`. -/
def parseInvoiceWithVision (raw : Option RawVisionResult) :
    Except String ParsedInvoiceData :=
  match raw with
  | none => Except.error "Failed to parse invoice"
  | some r =>
    match r.chunksField with
    | RawChunksField.missing => Except.error "Invalid response format from OpenAI"
    | RawChunksField.notArray => Except.error "Invalid response format from OpenAI"
    | RawChunksField.arr entries =>
      Except.ok { chunks := entries, extractedText := some (r.extractedText.getD "") }

/-! ### Processing pipeline (fileProcessor.ts) -/

/-- Outcome of `convertToBase64Image` for the given file. -/
inductive ConvertOutcome
  | ok (base64 : String)
  | failed (msg : String)
deriving DecidableEq, Repr

/-- The environment one background run observes: what the encoding step and
the extraction call would produce for the uploaded file. -/
structure PipelineEnv where
  convert : ConvertOutcome
  visionRaw : Option RawVisionResult
deriving DecidableEq, Repr

/-- The chunk-creation loop at the 50→75 boundary: for each extraction entry,
in order, insert a chunk with `sequenceNumber = index + 1`, fields copied
verbatim, `status: "pending"`, `isEdited: false`.  Returns the created chunks
in creation order together with the updated storage. -/
def createChunksFrom (invoiceId : Nat) (s : Storage) (idx : Nat) :
    List ExtractedChunk → List Chunk × Storage
  | [] => ([], s)
  | e :: rest =>
    let created := s.createChunk
      { invoiceId := invoiceId
        chunkType := e.type
        sequenceNumber := idx + 1
        title := e.title
        extractedData := e.data
        boundingBox := e.boundingBox
        confidence := e.confidence
        status := some ChStatus.pending
        isEdited := some false }
    let tail := createChunksFrom invoiceId created.2 (idx + 1) rest
    (created.1 :: tail.1, tail.2)

/-- `FileProcessor.processFileInBackground`: the staged run with its
try/catch error boundary.  Besides the final storage it returns the sequence
of `processingProgress` values written for the invoice, in order. -/
def processFileInBackground (s : Storage) (invoiceId : Nat) (env : PipelineEnv) :
    Storage × List Nat :=
  let s1 := (s.updateInvoice invoiceId { processingProgress := some 25 }).2
  match env.convert with
  | ConvertOutcome.failed _ =>
    let sF := (s1.updateInvoice invoiceId
      { status := some InvStatus.rejected, processingProgress := some 0 }).2
    (sF, [25, 0])
  | ConvertOutcome.ok _ =>
    let s2 := (s1.updateInvoice invoiceId { processingProgress := some 50 }).2
    match parseInvoiceWithVision env.visionRaw with
    | Except.error _ =>
      let sF := (s2.updateInvoice invoiceId
        { status := some InvStatus.rejected, processingProgress := some 0 }).2
      (sF, [25, 50, 0])
    | Except.ok parsed =>
      let s3 := (s2.updateInvoice invoiceId { processingProgress := some 75 }).2
      let batch := createChunksFrom invoiceId s3 0 parsed.chunks
      let s5 := (batch.2.updateInvoice invoiceId
        { status := some InvStatus.ready_for_review
          processingProgress := some 100
          extractedText := some parsed.extractedText
          totalChunks := some batch.1.length
          approvedChunks := some 0
          rejectedChunks := some 0 }).2
      (s5, [25, 50, 75, 100])

/-- `FileProcessor.processUploadedFile`: create the invoice record in status
processing at progress 10, then run the background stages.  Returns the new
invoice id, the final storage and the full progress trace (10 included). -/
def processUploadedFile (s : Storage) (filename mimeType : String) (fileSize : Nat)
    (env : PipelineEnv) : Nat × Storage × List Nat :=
  let created := s.createInvoice
    { filename := filename
      mimeType := mimeType
      fileSize := fileSize
      status := some InvStatus.processing
      processingProgress := some 10 }
  let run := processFileInBackground created.2 created.1.id env
  (created.1.id, run.1, 10 :: run.2)

/-! ### Review queue navigator (useKeyboardNavigation) -/

/-- Keys the handler dispatches on. -/
inductive Key
  | tab
  | shiftTab
  | enter
  | keyR
  | keyE
  | escape
  | arrowDown
  | arrowUp
deriving DecidableEq, Repr

/-- A chunk transition the handler requests from its callbacks, identified by
the index of the chunk it targets. -/
inductive NavEffect
  | approveAct (idx : Nat)
  | rejectAct (idx : Nat)
  | editAct (idx : Nat)
deriving DecidableEq, Repr

/-- `chunks.findIndex((chunk, index) => index > cursor && chunk.status ===
'pending')`, scanning positions `base, base+1, ...` of the list. -/
def findNextPendingAux (cursor : Nat) : List ChStatus → Nat → Option Nat
  | [], _ => none
  | st :: rest, base =>
    if cursor < base ∧ st = ChStatus.pending then some base
    else findNextPendingAux cursor rest (base + 1)

/-- Index of the next pending chunk strictly after the cursor, if any. -/
def findNextPending (statuses : List ChStatus) (cursor : Nat) : Option Nat :=
  findNextPendingAux cursor statuses 0

/-- `useKeyboardNavigation.handleKeyDown`, as a pure function of the chunk
status list and the focused index: the effects requested and the new cursor.
The guard `if (!focusedChunk) return` makes every key a no-op when the cursor
is out of range. -/
def handleKeyDown (statuses : List ChStatus) (cursor : Nat) (k : Key) :
    List NavEffect × Nat :=
  match statuses[cursor]? with
  | none => ([], cursor)
  | some focused =>
    match k with
    | Key.tab => ([], if cursor < statuses.length - 1 then cursor + 1 else 0)
    | Key.shiftTab => ([], if cursor > 0 then cursor - 1 else statuses.length - 1)
    | Key.enter =>
      if focused = ChStatus.pending then
        match findNextPending statuses cursor with
        | some j => ([NavEffect.approveAct cursor], j)
        | none => ([NavEffect.approveAct cursor], cursor)
      else ([], cursor)
    | Key.keyR =>
      if focused = ChStatus.pending then
        match findNextPending statuses cursor with
        | some j => ([NavEffect.rejectAct cursor], j)
        | none => ([NavEffect.rejectAct cursor], cursor)
      else ([], cursor)
    | Key.keyE => ([NavEffect.editAct cursor], cursor)
    | Key.escape => ([], cursor)
    | Key.arrowDown => ([], if cursor < statuses.length - 1 then cursor + 1 else cursor)
    | Key.arrowUp => ([], if cursor > 0 then cursor - 1 else cursor)

/-! ### Observable operation sequences -/

/-- The user-facing operations of the core, as the spec enumerates them:
submit a file, approve a chunk, reject a chunk, update a chunk's editable
fields, finalize a document. -/
inductive Op
  | submit (filename mimeType : String) (fileSize : Nat) (env : PipelineEnv)
  | approve (chunkId : Nat)
  | reject (chunkId : Nat)
  | update (chunkId : Nat) (data : Option FieldMap) (isEdited : Option Bool)
      (status : Option ChStatus) (origData : Option (Option FieldMap))
  | finalize (invoiceId : Nat)

/-- The editable-field payload of an `Op.update`. -/
def Op.updatePayload (data : Option FieldMap) (isEdited : Option Bool)
    (status : Option ChStatus) (origData : Option (Option FieldMap)) : ChunkUpdates :=
  { extractedData := data, isEdited := isEdited, status := status, originalData := origData }

/-- One observable step: run the corresponding handler, keep the storage. -/
def step (s : Storage) : Op → Storage
  | Op.submit f m sz env => (processUploadedFile s f m sz env).2.1
  | Op.approve cid => (approveChunkRoute s cid).2
  | Op.reject cid => (rejectChunkRoute s cid).2
  | Op.update cid d e st od => (patchChunkRoute s cid (Op.updatePayload d e st od)).2
  | Op.finalize iid => (finalizeInvoiceRoute s iid).2

/-- Run a sequence of operations from a starting storage. -/
def run (s : Storage) (ops : List Op) : Storage := ops.foldl step s

/-- The documented document invariant: for every document,
`approvedChunks + rejectedChunks ≤ totalChunks`. -/
def DocCountInvariant (s : Storage) : Prop :=
  ∀ inv ∈ s.invoices, inv.approvedChunks + inv.rejectedChunks ≤ inv.totalChunks

/-- Number of chunks stored for a given invoice id. -/
def countChunksOf (chunks : List Chunk) (invoiceId : Nat) : Nat :=
  (chunks.filter (fun c => c.invoiceId == invoiceId)).length

/-- Well-formedness of a storage value: every stored id is below the
freshness counter (so newly generated ids never collide). -/
def Storage.WF (s : Storage) : Prop :=
  (∀ inv ∈ s.invoices, inv.id < s.nextId) ∧ (∀ c ∈ s.chunks, c.invoiceId < s.nextId)

/-- The chunk the 50→75 loop inserts for extraction entry `e`, given the
generated id and the assigned (1-based) sequence number. -/
def mkCreatedChunk (invoiceId cid seq : Nat) (e : ExtractedChunk) : Chunk :=
  { id := cid
    invoiceId := invoiceId
    chunkType := e.type
    sequenceNumber := seq
    title := e.title
    extractedData := e.data
    boundingBox := e.boundingBox
    confidence := e.confidence
    status := ChStatus.pending
    isEdited := false
    originalData := none }

/-- Closed form of the chunk batch the 50→75 loop materializes: entry `i`
gets the `i`-th generated id starting at `cid` and sequence number
`idx + i + 1`. -/
def createdBatchFrom (invoiceId : Nat) : Nat → Nat → List ExtractedChunk → List Chunk
  | _, _, [] => []
  | cid, idx, e :: rest =>
    mkCreatedChunk invoiceId cid (idx + 1) e :: createdBatchFrom invoiceId (cid + 1) (idx + 1) rest

/-- The invoice record as `processUploadedFile` first creates it. -/
def submittedInvoice (n : Nat) (f m : String) (sz : Nat) : Invoice :=
  { id := n
    filename := f
    mimeType := m
    fileSize := sz
    status := InvStatus.processing
    extractedText := none
    processingProgress := 10
    totalChunks := 0
    approvedChunks := 0
    rejectedChunks := 0 }

/-- The invoice record after the error boundary of a failed run. -/
def failedRunInvoice (n : Nat) (f m : String) (sz : Nat) : Invoice :=
  { submittedInvoice n f m sz with
    status := InvStatus.rejected
    processingProgress := 0 }

/-- The invoice record after a successful run over extraction result
`parsed`. -/
def readyInvoice (n : Nat) (f m : String) (sz : Nat) (parsed : ParsedInvoiceData) : Invoice :=
  { id := n
    filename := f
    mimeType := m
    fileSize := sz
    status := InvStatus.ready_for_review
    extractedText := parsed.extractedText
    processingProgress := 100
    totalChunks := parsed.chunks.length
    approvedChunks := 0
    rejectedChunks := 0 }

/-- Strengthened inductive invariant for operation sequences: well-formed
ids, and every document's `totalChunks` dominates both its stored chunk
count and the sum of its two counters. -/
def StorageGood (s : Storage) : Prop :=
  (∀ inv ∈ s.invoices,
      inv.id < s.nextId ∧
      countChunksOf s.chunks inv.id ≤ inv.totalChunks ∧
      inv.approvedChunks + inv.rejectedChunks ≤ inv.totalChunks) ∧
  (∀ c ∈ s.chunks, c.invoiceId < s.nextId)

/-! ### Concrete fixtures -/

/-- A sample bounding box. -/
def exBBox : BBox := { x := 0, y := 0, width := 100, height := 20 }

/-- A sample extraction entry. -/
def exEntry : ExtractedChunk :=
  { type := "header"
    title := "Header Information"
    data := [("vendor", "Acme")]
    boundingBox := exBBox
    confidence := 1 }

/-- A document under review with one pending chunk. -/
def exInvoice : Invoice :=
  { id := 0
    filename := "invoice.png"
    mimeType := "image/png"
    fileSize := 4
    status := InvStatus.ready_for_review
    extractedText := some "full text"
    processingProgress := 100
    totalChunks := 1
    approvedChunks := 0
    rejectedChunks := 0 }

/-- Its single chunk, still pending. -/
def exChunk : Chunk :=
  { id := 1
    invoiceId := 0
    chunkType := "header"
    sequenceNumber := 1
    title := "Header Information"
    extractedData := [("vendor", "Acme")]
    boundingBox := exBBox
    confidence := 1
    status := ChStatus.pending
    isEdited := false
    originalData := none }

/-- Storage holding `exInvoice` with its pending chunk. -/
def exStorage : Storage := { invoices := [exInvoice], chunks := [exChunk], nextId := 2 }

/-- The same document with its chunk already approved and counts consistent. -/
def exInvoiceA : Invoice := { exInvoice with approvedChunks := 1 }

/-- The chunk of `exInvoiceA`, approved. -/
def exChunkA : Chunk := { exChunk with status := ChStatus.approved }

/-- Storage holding `exInvoiceA` with its approved chunk. -/
def exStorageA : Storage := { invoices := [exInvoiceA], chunks := [exChunkA], nextId := 2 }

/-- A document still processing, with no chunks yet. -/
def exInvoiceP : Invoice :=
  { id := 0
    filename := "invoice.png"
    mimeType := "image/png"
    fileSize := 4
    status := InvStatus.processing
    extractedText := none
    processingProgress := 50
    totalChunks := 0
    approvedChunks := 0
    rejectedChunks := 0 }

/-- Storage holding only `exInvoiceP`. -/
def exStorageP : Storage := { invoices := [exInvoiceP], chunks := [], nextId := 1 }

/-- An environment whose encoding step fails (e.g. a PDF upload). -/
def exEnvFail : PipelineEnv :=
  { convert := ConvertOutcome.failed "PDF processing requires additional setup."
    visionRaw := none }

/-- A raw extraction result with one well-formed entry. -/
def exRaw : RawVisionResult :=
  { chunksField := RawChunksField.arr [exEntry], extractedText := some "full text" }

/-- An environment whose run succeeds with one extracted chunk. -/
def exEnvOk : PipelineEnv := { convert := ConvertOutcome.ok "base64data", visionRaw := some exRaw }

/-! ### Lemmas about the id-keyed map model -/

theorem mem_mapSet {key : α → Nat} {id : Nat} {v : α} :
    ∀ {l : List α} {x : α}, x ∈ mapSet key l id v → x = v ∨ x ∈ l := by
  intro l
  induction l with
  | nil =>
    intro x hx
    simpa [mapSet] using hx
  | cons y rest ih =>
    intro x hx
    by_cases h : (key y == id) = true
    · rw [mapSet, if_pos h] at hx
      rcases List.mem_cons.mp hx with hx | hx
      · exact Or.inl hx
      · exact Or.inr (List.mem_cons_of_mem _ hx)
    · rw [mapSet, if_neg h] at hx
      rcases List.mem_cons.mp hx with hx | hx
      · exact Or.inr (hx ▸ List.mem_cons_self _ _)
      · rcases ih hx with hx | hx
        · exact Or.inl hx
        · exact Or.inr (List.mem_cons_of_mem _ hx)

theorem mapGet_key {key : α → Nat} {l : List α} {id : Nat} {c : α}
    (h : mapGet key l id = some c) : key c = id := by
  have := List.find?_some h
  simpa using this

theorem mapGet_mem {key : α → Nat} {l : List α} {id : Nat} {c : α}
    (h : mapGet key l id = some c) : c ∈ l :=
  List.mem_of_find?_eq_some h

/-- Replacing the found entry by itself leaves the map unchanged. -/
theorem mapSet_found_self {key : α → Nat} {id : Nat} {c : α} :
    ∀ {l : List α}, mapGet key l id = some c → mapSet key l id c = l := by
  intro l
  induction l with
  | nil =>
    intro h
    simp [mapGet] at h
  | cons y rest ih =>
    intro h
    by_cases hy : (key y == id) = true
    · have hyc : y = c := by
        simp only [mapGet, List.find?_cons, hy, if_pos, Option.some.injEq] at h
        exact h
      rw [mapSet, if_pos hy, hyc]
    · have hy2 : (key y == id) = false := by simpa using hy
      have h2 : mapGet key rest id = some c := by
        simpa only [mapGet, List.find?_cons, hy2, if_neg, Bool.false_eq_true] using h
      rw [mapSet, if_neg hy, ih h2]

theorem mapGet_mapSet_self {key : α → Nat} {id : Nat} {c v : α} (hv : key v = id) :
    ∀ {l : List α}, mapGet key l id = some c →
      mapGet key (mapSet key l id v) id = some v := by
  intro l
  induction l with
  | nil =>
    intro h
    simp [mapGet] at h
  | cons y rest ih =>
    intro h
    by_cases hy : (key y == id) = true
    · rw [mapSet, if_pos hy]
      simp [mapGet, List.find?_cons, hv]
    · have hy2 : (key y == id) = false := by simpa using hy
      have h2 : mapGet key rest id = some c := by
        simpa only [mapGet, List.find?_cons, hy2, if_neg, Bool.false_eq_true] using h
      rw [mapSet, if_neg hy]
      simp only [mapGet, List.find?_cons, hy2, if_neg, Bool.false_eq_true]
      exact ih h2

/-- `Map.get` skips a region that does not contain the key. -/
theorem mapGet_append_fresh {key : α → Nat} {l2 : List α} {id : Nat} :
    ∀ {l : List α}, (∀ y ∈ l, key y ≠ id) →
      mapGet key (l ++ l2) id = mapGet key l2 id := by
  intro l
  induction l with
  | nil =>
    intro _
    rfl
  | cons y rest ih =>
    intro h
    have hy : (key y == id) = false := by
      simpa using h y (List.mem_cons_self _ _)
    rw [List.cons_append, mapGet]
    simp only [List.find?_cons, hy, if_neg, Bool.false_eq_true]
    exact ih fun z hz => h z (List.mem_cons_of_mem _ hz)

/-- `Map.set` skips a region that does not contain the key. -/
theorem mapSet_append_fresh {key : α → Nat} {x v : α} {id : Nat} (hx : key x = id) :
    ∀ {l : List α}, (∀ y ∈ l, key y ≠ id) →
      mapSet key (l ++ [x]) id v = l ++ [v] := by
  intro l
  induction l with
  | nil =>
    intro _
    simp [mapSet, hx]
  | cons y rest ih =>
    intro h
    have hy : (key y == id) = false := by
      simpa using h y (List.mem_cons_self _ _)
    rw [List.cons_append, mapSet, if_neg (by simp [hy]), ih fun z hz => h z (List.mem_cons_of_mem _ hz)]
    rfl

/-- Replacing an entry by one with the same value of a measured attribute
keeps every filter-count over that attribute. -/
theorem length_filter_mapSet {key : α → Nat} {id : Nat} {c v : α}
    (p : α → Bool) (hp : p v = p c) :
    ∀ {l : List α}, mapGet key l id = some c →
      ((mapSet key l id v).filter p).length = (l.filter p).length := by
  intro l
  induction l with
  | nil =>
    intro h
    simp [mapGet] at h
  | cons y rest ih =>
    intro h
    by_cases hy : (key y == id) = true
    · have hcy : y = c := by
        simp only [mapGet, List.find?_cons, hy, if_pos, Option.some.injEq] at h
        exact h
      subst hcy
      rw [mapSet, if_pos hy, List.filter_cons, List.filter_cons, hp]
      by_cases hpy : p y = true
      · simp [hpy]
      · simp [hpy]
    · have hy2 : (key y == id) = false := by simpa using hy
      have h2 : mapGet key rest id = some c := by
        simpa only [mapGet, List.find?_cons, hy2, if_neg, Bool.false_eq_true] using h
      rw [mapSet, if_neg hy, List.filter_cons, List.filter_cons]
      by_cases hpy : p y = true
      · simp [hpy, ih h2]
      · simp [hpy, ih h2]

/-- Two disjoint filters never cover more than the whole list. -/
theorem length_filter_add_length_filter_le (p q : α → Bool) (l : List α)
    (h : ∀ x ∈ l, ¬(p x = true ∧ q x = true)) :
    (l.filter p).length + (l.filter q).length ≤ l.length := by
  induction l with
  | nil => simp
  | cons y rest ih =>
    have hy := h y (List.mem_cons_self _ _)
    have ih2 := ih fun z hz => h z (List.mem_cons_of_mem _ hz)
    by_cases hp : p y = true
    · have hq : q y = false := by
        cases hqy : q y
        · rfl
        · exact absurd ⟨hp, hqy⟩ hy
      simp only [List.filter_cons, hp, hq, if_pos, Bool.false_eq_true, if_neg,
        not_false_iff, List.length_cons]
      omega
    · by_cases hq : q y = true
      · simp only [List.filter_cons, hp, hq, Bool.false_eq_true, if_neg, not_false_iff,
          if_pos, List.length_cons]
        omega
      · simp only [List.filter_cons, hp, hq, Bool.false_eq_true, if_neg, not_false_iff,
          List.length_cons]
        omega

/-! ### Lemmas about the storage operations -/

theorem applyInvoiceUpdates_id (inv : Invoice) (u : InvoiceUpdates) :
    (applyInvoiceUpdates inv u).id = inv.id := rfl

theorem applyChunkUpdates_id (c : Chunk) (u : ChunkUpdates) :
    (applyChunkUpdates c u).id = c.id := rfl

theorem applyChunkUpdates_invoiceId (c : Chunk) (u : ChunkUpdates) :
    (applyChunkUpdates c u).invoiceId = c.invoiceId := rfl

theorem updateInvoice_chunks (s : Storage) (id : Nat) (u : InvoiceUpdates) :
    ((s.updateInvoice id u).2).chunks = s.chunks := by
  cases h : mapGet Invoice.id s.invoices id with
  | none => simp [Storage.updateInvoice, h]
  | some inv => simp [Storage.updateInvoice, h]

theorem updateInvoice_nextId (s : Storage) (id : Nat) (u : InvoiceUpdates) :
    ((s.updateInvoice id u).2).nextId = s.nextId := by
  cases h : mapGet Invoice.id s.invoices id with
  | none => simp [Storage.updateInvoice, h]
  | some inv => simp [Storage.updateInvoice, h]

theorem mem_updateInvoice_invoices {s : Storage} {id : Nat} {u : InvoiceUpdates} {x : Invoice}
    (hx : x ∈ ((s.updateInvoice id u).2).invoices) :
    x ∈ s.invoices ∨
      ∃ inv, mapGet Invoice.id s.invoices id = some inv ∧ x = applyInvoiceUpdates inv u := by
  cases h : mapGet Invoice.id s.invoices id with
  | none =>
    rw [Storage.updateInvoice] at hx
    simp only [h] at hx
    exact Or.inl hx
  | some inv =>
    rw [Storage.updateInvoice] at hx
    simp only [h] at hx
    rcases mem_mapSet hx with hx | hx
    · exact Or.inr ⟨inv, rfl, hx⟩
    · exact Or.inl hx

theorem recomputeStats_chunks (s : Storage) (invoiceId : Nat) :
    (recomputeStats s invoiceId).chunks = s.chunks :=
  updateInvoice_chunks s invoiceId _

theorem recomputeStats_nextId (s : Storage) (invoiceId : Nat) :
    (recomputeStats s invoiceId).nextId = s.nextId :=
  updateInvoice_nextId s invoiceId _

theorem updateInvoice_found {s : Storage} {id : Nat} {u : InvoiceUpdates} {inv : Invoice}
    (h : mapGet Invoice.id s.invoices id = some inv) :
    s.updateInvoice id u =
      (some (applyInvoiceUpdates inv u),
       { s with invoices := mapSet Invoice.id s.invoices id (applyInvoiceUpdates inv u) }) := by
  simp [Storage.updateInvoice, h]

theorem updateChunkStatus_found {s : Storage} {id : Nat} {st : ChStatus} {c : Chunk}
    (h : mapGet Chunk.id s.chunks id = some c) :
    s.updateChunkStatus id st =
      (some { c with status := st },
       { s with chunks := mapSet Chunk.id s.chunks id { c with status := st } }) := by
  simp [Storage.updateChunkStatus, h]

theorem updateChunk_found {s : Storage} {id : Nat} {u : ChunkUpdates} {c : Chunk}
    (h : mapGet Chunk.id s.chunks id = some c) :
    s.updateChunk id u =
      (some (applyChunkUpdates c u),
       { s with chunks := mapSet Chunk.id s.chunks id (applyChunkUpdates c u) }) := by
  simp [Storage.updateChunk, h]

/-! ### Counting lemmas -/

theorem countChunksOf_mapSet {l : List Chunk} {id : Nat} {c v : Chunk}
    (h : mapGet Chunk.id l id = some c) (hv : v.invoiceId = c.invoiceId) (j : Nat) :
    countChunksOf (mapSet Chunk.id l id v) j = countChunksOf l j := by
  unfold countChunksOf
  refine length_filter_mapSet (fun x => x.invoiceId == j) ?_ h
  simp only [hv]

theorem countChunksOf_append (l1 l2 : List Chunk) (j : Nat) :
    countChunksOf (l1 ++ l2) j = countChunksOf l1 j + countChunksOf l2 j := by
  simp [countChunksOf, List.filter_append]

theorem countChunksOf_eq_zero {l : List Chunk} {j : Nat} (h : ∀ c ∈ l, c.invoiceId ≠ j) :
    countChunksOf l j = 0 := by
  have : l.filter (fun c => c.invoiceId == j) = [] := by
    rw [List.filter_eq_nil_iff]
    intro c hc
    simpa using h c hc
  simp [countChunksOf, this]

theorem countChunksOf_eq_length {l : List Chunk} {j : Nat} (h : ∀ c ∈ l, c.invoiceId = j) :
    countChunksOf l j = l.length := by
  have : l.filter (fun c => c.invoiceId == j) = l := by
    rw [List.filter_eq_self]
    intro c hc
    simpa using h c hc
  simp [countChunksOf, this]

theorem getChunksByInvoice_perm (s : Storage) (j : Nat) :
    (s.getChunksByInvoice j).Perm (s.chunks.filter (fun c => c.invoiceId == j)) :=
  List.perm_insertionSort seqLe _

/-- The two counts the routes recompute never exceed the invoice's stored
chunk count. -/
theorem approved_add_rejected_le (s : Storage) (invoiceId : Nat) :
    approvedCountOf s invoiceId + rejectedCountOf s invoiceId ≤
      countChunksOf s.chunks invoiceId := by
  have hperm := getChunksByInvoice_perm s invoiceId
  have ha := (hperm.filter (fun c => c.status == ChStatus.approved)).length_eq
  have hr := (hperm.filter (fun c => c.status == ChStatus.rejected)).length_eq
  have hdisj := length_filter_add_length_filter_le
    (fun c => c.status == ChStatus.approved) (fun c => c.status == ChStatus.rejected)
    (s.chunks.filter (fun c => c.invoiceId == invoiceId))
    (by
      intro x _ hx
      rcases hx with ⟨h1, h2⟩
      have e1 : x.status = ChStatus.approved := by simpa using h1
      have e2 : x.status = ChStatus.rejected := by simpa using h2
      rw [e1] at e2
      exact ChStatus.noConfusion e2)
  unfold approvedCountOf rejectedCountOf countChunksOf
  omega

/-! ### Lemmas about the chunk-creation loop -/

theorem createChunksFrom_cons (invoiceId : Nat) (s : Storage) (idx : Nat)
    (e : ExtractedChunk) (rest : List ExtractedChunk) :
    createChunksFrom invoiceId s idx (e :: rest) =
      (mkCreatedChunk invoiceId s.nextId (idx + 1) e ::
        (createChunksFrom invoiceId
          { s with
            chunks := s.chunks ++ [mkCreatedChunk invoiceId s.nextId (idx + 1) e],
            nextId := s.nextId + 1 } (idx + 1) rest).1,
       (createChunksFrom invoiceId
          { s with
            chunks := s.chunks ++ [mkCreatedChunk invoiceId s.nextId (idx + 1) e],
            nextId := s.nextId + 1 } (idx + 1) rest).2) := rfl

theorem createChunksFrom_batch (invoiceId : Nat) :
    ∀ (entries : List ExtractedChunk) (s : Storage) (idx : Nat),
      (createChunksFrom invoiceId s idx entries).1 =
        createdBatchFrom invoiceId s.nextId idx entries
  | [], _, _ => rfl
  | e :: rest, s, idx => by
    rw [createChunksFrom_cons, createdBatchFrom,
      createChunksFrom_batch invoiceId rest _ (idx + 1)]

theorem createChunksFrom_invoices (invoiceId : Nat) :
    ∀ (entries : List ExtractedChunk) (s : Storage) (idx : Nat),
      (createChunksFrom invoiceId s idx entries).2.invoices = s.invoices
  | [], _, _ => rfl
  | e :: rest, s, idx => by
    rw [createChunksFrom_cons, createChunksFrom_invoices invoiceId rest _ (idx + 1)]

theorem createChunksFrom_nextId (invoiceId : Nat) :
    ∀ (entries : List ExtractedChunk) (s : Storage) (idx : Nat),
      (createChunksFrom invoiceId s idx entries).2.nextId = s.nextId + entries.length
  | [], _, _ => rfl
  | e :: rest, s, idx => by
    rw [createChunksFrom_cons, createChunksFrom_nextId invoiceId rest _ (idx + 1)]
    simp only [List.length_cons]
    omega

theorem createChunksFrom_chunks (invoiceId : Nat) :
    ∀ (entries : List ExtractedChunk) (s : Storage) (idx : Nat),
      (createChunksFrom invoiceId s idx entries).2.chunks =
        s.chunks ++ (createChunksFrom invoiceId s idx entries).1
  | [], s, _ => by simp [createChunksFrom]
  | e :: rest, s, idx => by
    rw [createChunksFrom_cons, createChunksFrom_chunks invoiceId rest _ (idx + 1)]
    simp [List.append_assoc]

theorem createdBatchFrom_length (invoiceId : Nat) :
    ∀ (entries : List ExtractedChunk) (cid idx : Nat),
      (createdBatchFrom invoiceId cid idx entries).length = entries.length
  | [], _, _ => rfl
  | e :: rest, cid, idx => by
    rw [createdBatchFrom]
    simp only [List.length_cons, createdBatchFrom_length invoiceId rest (cid + 1) (idx + 1)]

theorem createdBatchFrom_getElem (invoiceId : Nat) :
    ∀ (entries : List ExtractedChunk) (cid idx i : Nat) (e : ExtractedChunk),
      entries[i]? = some e →
      (createdBatchFrom invoiceId cid idx entries)[i]? =
        some (mkCreatedChunk invoiceId (cid + i) (idx + i + 1) e)
  | [], _, _, _, _ => by
    intro h
    simp at h
  | e0 :: rest, cid, idx, 0, e => by
    intro h
    simp only [List.getElem?_cons_zero, Option.some.injEq] at h
    subst h
    simp [createdBatchFrom]
  | e0 :: rest, cid, idx, i + 1, e => by
    intro h
    simp only [List.getElem?_cons_succ] at h
    rw [createdBatchFrom]
    simp only [List.getElem?_cons_succ]
    rw [createdBatchFrom_getElem invoiceId rest (cid + 1) (idx + 1) i e h]
    have h1 : cid + 1 + i = cid + (i + 1) := by omega
    have h2 : idx + 1 + i + 1 = idx + (i + 1) + 1 := by omega
    rw [h1, h2]

theorem createdBatchFrom_mem (invoiceId : Nat) :
    ∀ {entries : List ExtractedChunk} {cid idx : Nat} {c : Chunk},
      c ∈ createdBatchFrom invoiceId cid idx entries →
      ∃ cid2 seq2 e, idx + 1 ≤ seq2 ∧ c = mkCreatedChunk invoiceId cid2 seq2 e := by
  intro entries
  induction entries with
  | nil =>
    intro cid idx c hc
    simp [createdBatchFrom] at hc
  | cons e0 rest ih =>
    intro cid idx c hc
    rw [createdBatchFrom] at hc
    rcases List.mem_cons.mp hc with hc | hc
    · exact ⟨cid, idx + 1, e0, Nat.le_refl _, hc⟩
    · rcases ih hc with ⟨cid2, seq2, e, hle, hc⟩
      exact ⟨cid2, seq2, e, by omega, hc⟩

theorem createdBatchFrom_sorted (invoiceId : Nat) :
    ∀ (entries : List ExtractedChunk) (cid idx : Nat),
      List.Sorted seqLe (createdBatchFrom invoiceId cid idx entries)
  | [], _, _ => List.sorted_nil
  | e :: rest, cid, idx => by
    rw [createdBatchFrom, List.sorted_cons]
    refine ⟨?_, createdBatchFrom_sorted invoiceId rest (cid + 1) (idx + 1)⟩
    intro b hb
    rcases createdBatchFrom_mem invoiceId hb with ⟨cid2, seq2, e2, hle, hb⟩
    subst hb
    show (mkCreatedChunk invoiceId cid (idx + 1) e).sequenceNumber ≤
      (mkCreatedChunk invoiceId cid2 seq2 e2).sequenceNumber
    simp only [mkCreatedChunk]
    omega

/-! ### Pipeline state lemmas -/

/-- Updating the invoice that sits last in the store, when no earlier
invoice shares its id. -/
theorem updateInvoice_last (L : List Invoice) (x : Invoice) (cl : List Chunk)
    (nid n : Nat) (u : InvoiceUpdates)
    (hfresh : ∀ y ∈ L, y.id ≠ n) (hx : x.id = n) :
    (Storage.mk (L ++ [x]) cl nid).updateInvoice n u =
      (some (applyInvoiceUpdates x u),
       Storage.mk (L ++ [applyInvoiceUpdates x u]) cl nid) := by
  have hget : mapGet Invoice.id (L ++ [x]) n = some x := by
    rw [mapGet_append_fresh hfresh]
    simp [mapGet, List.find?, hx]
  rw [Storage.updateInvoice]
  simp only [hget]
  rw [mapSet_append_fresh hx hfresh]

/-- `processUploadedFile`, with the storage handed to the background run in
constructor form. -/
theorem processUploadedFile_eq (s : Storage) (f m : String) (sz : Nat) (env : PipelineEnv) :
    processUploadedFile s f m sz env =
      (s.nextId,
       processFileInBackground
         (Storage.mk (s.invoices ++ [submittedInvoice s.nextId f m sz]) s.chunks (s.nextId + 1))
         s.nextId env |>.1,
       10 :: (processFileInBackground
         (Storage.mk (s.invoices ++ [submittedInvoice s.nextId f m sz]) s.chunks (s.nextId + 1))
         s.nextId env |>.2)) := rfl

/-- The background-run storage transformer, in constructor form. -/
theorem createChunksFrom_storage (invoiceId : Nat) (entries : List ExtractedChunk)
    (s : Storage) (idx : Nat) :
    (createChunksFrom invoiceId s idx entries).2 =
      Storage.mk s.invoices
        (s.chunks ++ createdBatchFrom invoiceId s.nextId idx entries)
        (s.nextId + entries.length) :=
  calc (createChunksFrom invoiceId s idx entries).2
      = Storage.mk (createChunksFrom invoiceId s idx entries).2.invoices
          (createChunksFrom invoiceId s idx entries).2.chunks
          (createChunksFrom invoiceId s idx entries).2.nextId := rfl
    _ = _ := by
        rw [createChunksFrom_invoices, createChunksFrom_chunks, createChunksFrom_nextId,
          createChunksFrom_batch]

/-- A failed background run (either the encoding step or the extraction call
fails): the new invoice ends rejected at progress 0 and the chunk store is
untouched. -/
theorem submit_fail_state (s : Storage) (f m : String) (sz : Nat) (env : PipelineEnv)
    (hWFi : ∀ inv ∈ s.invoices, inv.id < s.nextId)
    (hfail : ¬ ∃ b p, env.convert = ConvertOutcome.ok b ∧
      parseInvoiceWithVision env.visionRaw = Except.ok p) :
    (processUploadedFile s f m sz env).2.1 =
      Storage.mk (s.invoices ++ [failedRunInvoice s.nextId f m sz]) s.chunks (s.nextId + 1) := by
  have hfresh : ∀ y ∈ s.invoices, y.id ≠ s.nextId := by
    intro y hy
    exact Nat.ne_of_lt (hWFi y hy)
  have e1 := updateInvoice_last s.invoices (submittedInvoice s.nextId f m sz)
    s.chunks (s.nextId + 1) s.nextId { processingProgress := some 25 } hfresh rfl
  rw [processUploadedFile_eq]
  cases hconv : env.convert with
  | failed msg =>
    have e2 := updateInvoice_last s.invoices
      (applyInvoiceUpdates (submittedInvoice s.nextId f m sz) { processingProgress := some 25 })
      s.chunks (s.nextId + 1) s.nextId
      { status := some InvStatus.rejected, processingProgress := some 0 } hfresh rfl
    simp only [processFileInBackground, hconv, e1, e2]
    rfl
  | ok b =>
    cases hparse : parseInvoiceWithVision env.visionRaw with
    | error msg =>
      have e2 := updateInvoice_last s.invoices
        (applyInvoiceUpdates (submittedInvoice s.nextId f m sz) { processingProgress := some 25 })
        s.chunks (s.nextId + 1) s.nextId { processingProgress := some 50 } hfresh rfl
      have e3 := updateInvoice_last s.invoices
        (applyInvoiceUpdates
          (applyInvoiceUpdates (submittedInvoice s.nextId f m sz) { processingProgress := some 25 })
          { processingProgress := some 50 })
        s.chunks (s.nextId + 1) s.nextId
        { status := some InvStatus.rejected, processingProgress := some 0 } hfresh rfl
      simp only [processFileInBackground, hconv, hparse, e1, e2, e3]
      rfl
    | ok parsed =>
      exact absurd ⟨b, parsed, hconv, hparse⟩ hfail

/-- A successful background run: the new invoice ends ready for review with
the totals set, the chunk store gains exactly the created batch, and the
progress trace is the checkpoint sequence. -/
theorem submit_success_state (s : Storage) (f m : String) (sz : Nat) (env : PipelineEnv)
    (parsed : ParsedInvoiceData) (b : String)
    (hWFi : ∀ inv ∈ s.invoices, inv.id < s.nextId)
    (hconv : env.convert = ConvertOutcome.ok b)
    (hparse : parseInvoiceWithVision env.visionRaw = Except.ok parsed) :
    (processUploadedFile s f m sz env).2.1 =
      Storage.mk (s.invoices ++ [readyInvoice s.nextId f m sz parsed])
        (s.chunks ++ createdBatchFrom s.nextId (s.nextId + 1) 0 parsed.chunks)
        (s.nextId + 1 + parsed.chunks.length) ∧
    (processUploadedFile s f m sz env).2.2 = [10, 25, 50, 75, 100] := by
  have hfresh : ∀ y ∈ s.invoices, y.id ≠ s.nextId := by
    intro y hy
    exact Nat.ne_of_lt (hWFi y hy)
  have e1 := updateInvoice_last s.invoices (submittedInvoice s.nextId f m sz)
    s.chunks (s.nextId + 1) s.nextId { processingProgress := some 25 } hfresh rfl
  have e2 := updateInvoice_last s.invoices
    (applyInvoiceUpdates (submittedInvoice s.nextId f m sz) { processingProgress := some 25 })
    s.chunks (s.nextId + 1) s.nextId { processingProgress := some 50 } hfresh rfl
  have e3 := updateInvoice_last s.invoices
    (applyInvoiceUpdates
      (applyInvoiceUpdates (submittedInvoice s.nextId f m sz) { processingProgress := some 25 })
      { processingProgress := some 50 })
    s.chunks (s.nextId + 1) s.nextId { processingProgress := some 75 } hfresh rfl
  have e4 := updateInvoice_last s.invoices
    (applyInvoiceUpdates
      (applyInvoiceUpdates
        (applyInvoiceUpdates (submittedInvoice s.nextId f m sz) { processingProgress := some 25 })
        { processingProgress := some 50 })
      { processingProgress := some 75 })
    (s.chunks ++ createdBatchFrom s.nextId (s.nextId + 1) 0 parsed.chunks)
    (s.nextId + 1 + parsed.chunks.length) s.nextId
    { status := some InvStatus.ready_for_review
      processingProgress := some 100
      extractedText := some parsed.extractedText
      totalChunks := some ((createdBatchFrom s.nextId (s.nextId + 1) 0 parsed.chunks).length)
      approvedChunks := some 0
      rejectedChunks := some 0 } hfresh rfl
  rw [processUploadedFile_eq]
  simp only [processFileInBackground, hconv, hparse, e1, e2, e3,
    createChunksFrom_storage, createChunksFrom_batch, e4]
  refine ⟨?_, trivial⟩
  simp only [applyInvoiceUpdates, submittedInvoice, readyInvoice, Option.getD_some,
    Option.getD_none, createdBatchFrom_length]

/-! ### Preservation of the strengthened invariant -/

theorem mem_createdBatchFrom_invoiceId {invoiceId cid idx : Nat}
    {entries : List ExtractedChunk} {c : Chunk}
    (hc : c ∈ createdBatchFrom invoiceId cid idx entries) : c.invoiceId = invoiceId := by
  rcases createdBatchFrom_mem invoiceId hc with ⟨cid2, seq2, e, _, hc⟩
  subst hc
  rfl

theorem good_recompute (s : Storage) (invId : Nat) (h : StorageGood s) :
    StorageGood (recomputeStats s invId) := by
  obtain ⟨hinv, hch⟩ := h
  rw [recomputeStats]
  cases hg : mapGet Invoice.id s.invoices invId with
  | none =>
    rw [Storage.updateInvoice]
    simp only [hg]
    exact ⟨hinv, hch⟩
  | some inv =>
    rw [Storage.updateInvoice]
    simp only [hg]
    refine ⟨?_, hch⟩
    intro x hx
    rcases mem_mapSet hx with hx | hx
    · subst hx
      obtain ⟨hid, hcount, _⟩ := hinv inv (mapGet_mem hg)
      have hkey : inv.id = invId := mapGet_key hg
      refine ⟨hid, hcount, ?_⟩
      have hle := approved_add_rejected_le s invId
      have : countChunksOf s.chunks invId ≤ inv.totalChunks := hkey ▸ hcount
      show approvedCountOf s invId + rejectedCountOf s invId ≤ inv.totalChunks
      omega
    · exact hinv x hx

theorem good_chunkReplace (s : Storage) (cid : Nat) (c v : Chunk)
    (h : StorageGood s) (hg : mapGet Chunk.id s.chunks cid = some c)
    (hv : v.invoiceId = c.invoiceId) :
    StorageGood { s with chunks := mapSet Chunk.id s.chunks cid v } := by
  obtain ⟨hinv, hch⟩ := h
  constructor
  · intro x hx
    obtain ⟨hid, hcount, hsum⟩ := hinv x hx
    refine ⟨hid, ?_, hsum⟩
    show countChunksOf (mapSet Chunk.id s.chunks cid v) x.id ≤ x.totalChunks
    rw [countChunksOf_mapSet hg hv]
    exact hcount
  · intro d hd
    rcases mem_mapSet hd with hd | hd
    · subst hd
      rw [hv]
      exact hch c (mapGet_mem hg)
    · exact hch d hd

theorem good_updateInvoice_nocounts (s : Storage) (id : Nat) (u : InvoiceUpdates)
    (h : StorageGood s) (ht : u.totalChunks = none) (ha : u.approvedChunks = none)
    (hr : u.rejectedChunks = none) : StorageGood (s.updateInvoice id u).2 := by
  obtain ⟨hinv, hch⟩ := h
  cases hg : mapGet Invoice.id s.invoices id with
  | none =>
    rw [Storage.updateInvoice]
    simp only [hg]
    exact ⟨hinv, hch⟩
  | some inv =>
    rw [Storage.updateInvoice]
    simp only [hg]
    refine ⟨?_, hch⟩
    intro x hx
    rcases mem_mapSet hx with hx | hx
    · subst hx
      obtain ⟨hid, hcount, hsum⟩ := hinv inv (mapGet_mem hg)
      refine ⟨?_, ?_, ?_⟩
      · simpa [applyInvoiceUpdates] using hid
      · simpa [applyInvoiceUpdates, ht] using hcount
      · simpa [applyInvoiceUpdates, ht, ha, hr] using hsum
    · exact hinv x hx

theorem good_approveRoute (s : Storage) (cid : Nat) (h : StorageGood s) :
    StorageGood (approveChunkRoute s cid).2 := by
  rw [approveChunkRoute]
  cases hg : mapGet Chunk.id s.chunks cid with
  | none =>
    rw [Storage.updateChunkStatus]
    simp only [hg]
    exact h
  | some c =>
    rw [updateChunkStatus_found hg]
    exact good_recompute _ _
      (good_chunkReplace s cid c { c with status := ChStatus.approved } h hg rfl)

theorem good_rejectRoute (s : Storage) (cid : Nat) (h : StorageGood s) :
    StorageGood (rejectChunkRoute s cid).2 := by
  rw [rejectChunkRoute]
  cases hg : mapGet Chunk.id s.chunks cid with
  | none =>
    rw [Storage.updateChunkStatus]
    simp only [hg]
    exact h
  | some c =>
    rw [updateChunkStatus_found hg]
    exact good_recompute _ _
      (good_chunkReplace s cid c { c with status := ChStatus.rejected } h hg rfl)

theorem good_patchRoute (s : Storage) (cid : Nat) (u : ChunkUpdates) (h : StorageGood s) :
    StorageGood (patchChunkRoute s cid u).2 := by
  rw [patchChunkRoute]
  cases hg : mapGet Chunk.id s.chunks cid with
  | none =>
    rw [Storage.updateChunk]
    simp only [hg]
    exact h
  | some c =>
    rw [updateChunk_found hg]
    have hrep := good_chunkReplace s cid c (applyChunkUpdates c u) h hg
      (applyChunkUpdates_invoiceId c u)
    cases hst : u.status.isSome with
    | false =>
      simp only [hst]
      exact hrep
    | true =>
      simp only [hst]
      exact good_recompute _ _ hrep

theorem good_finalizeRoute (s : Storage) (iid : Nat) (h : StorageGood s) :
    StorageGood (finalizeInvoiceRoute s iid).2 := by
  rw [finalizeInvoiceRoute]
  simp only []
  split
  · exact h
  · split
    · next heq =>
      have h2 := congrArg Prod.snd heq
      exact h2 ▸ good_updateInvoice_nocounts s iid _ h rfl rfl rfl
    · next inv s1 heq =>
      have h2 := congrArg Prod.snd heq
      exact h2 ▸ good_updateInvoice_nocounts s iid _ h rfl rfl rfl

theorem good_submit (s : Storage) (f m : String) (sz : Nat) (env : PipelineEnv)
    (h : StorageGood s) : StorageGood (processUploadedFile s f m sz env).2.1 := by
  have hWFi : ∀ inv ∈ s.invoices, inv.id < s.nextId := fun inv hi => (h.1 inv hi).1
  by_cases hsucc : ∃ b p, env.convert = ConvertOutcome.ok b ∧
      parseInvoiceWithVision env.visionRaw = Except.ok p
  · obtain ⟨b, parsed, hconv, hparse⟩ := hsucc
    obtain ⟨hstate, _⟩ := submit_success_state s f m sz env parsed b hWFi hconv hparse
    rw [hstate]
    have hbatchMem : ∀ d ∈ createdBatchFrom s.nextId (s.nextId + 1) 0 parsed.chunks,
        d.invoiceId = s.nextId := fun d hd => mem_createdBatchFrom_invoiceId hd
    constructor
    · intro x hx
      dsimp only at hx ⊢
      rcases List.mem_append.mp hx with hx | hx
      · obtain ⟨hid, hcount, hsum⟩ := h.1 x hx
        refine ⟨by omega, ?_, hsum⟩
        have hz : countChunksOf (createdBatchFrom s.nextId (s.nextId + 1) 0 parsed.chunks)
            x.id = 0 := countChunksOf_eq_zero (fun d hd => by
          rw [hbatchMem d hd]
          exact Nat.ne_of_gt hid)
        rw [countChunksOf_append, hz]
        omega
      · have hx2 : x = readyInvoice s.nextId f m sz parsed := by simpa using hx
        subst hx2
        have hz : countChunksOf s.chunks (readyInvoice s.nextId f m sz parsed).id = 0 := by
          refine countChunksOf_eq_zero (fun d hd => ?_)
          show d.invoiceId ≠ s.nextId
          exact Nat.ne_of_lt (h.2 d hd)
        have hl : countChunksOf (createdBatchFrom s.nextId (s.nextId + 1) 0 parsed.chunks)
            (readyInvoice s.nextId f m sz parsed).id = parsed.chunks.length := by
          show countChunksOf (createdBatchFrom s.nextId (s.nextId + 1) 0 parsed.chunks)
            s.nextId = parsed.chunks.length
          rw [countChunksOf_eq_length hbatchMem, createdBatchFrom_length]
        refine ⟨?_, ?_, ?_⟩
        · show s.nextId < s.nextId + 1 + parsed.chunks.length
          omega
        · rw [countChunksOf_append, hz, hl]
          show 0 + parsed.chunks.length ≤ parsed.chunks.length
          omega
        · show 0 + 0 ≤ parsed.chunks.length
          omega
    · intro d hd
      dsimp only at hd ⊢
      rcases List.mem_append.mp hd with hd | hd
      · have := h.2 d hd
        omega
      · rw [hbatchMem d hd]
        omega
  · have hstate := submit_fail_state s f m sz env hWFi hsucc
    rw [hstate]
    constructor
    · intro x hx
      dsimp only at hx ⊢
      rcases List.mem_append.mp hx with hx | hx
      · obtain ⟨hid, hcount, hsum⟩ := h.1 x hx
        exact ⟨by omega, hcount, hsum⟩
      · have hx2 : x = failedRunInvoice s.nextId f m sz := by simpa using hx
        subst hx2
        have hz : countChunksOf s.chunks (failedRunInvoice s.nextId f m sz).id = 0 := by
          refine countChunksOf_eq_zero (fun d hd => ?_)
          show d.invoiceId ≠ s.nextId
          exact Nat.ne_of_lt (h.2 d hd)
        refine ⟨?_, ?_, ?_⟩
        · show s.nextId < s.nextId + 1
          omega
        · rw [hz]
          exact Nat.zero_le _
        · show 0 + 0 ≤ (0 : Nat)
          omega
    · intro d hd
      dsimp only at hd ⊢
      have := h.2 d hd
      omega

theorem good_step (s : Storage) (op : Op) (h : StorageGood s) : StorageGood (step s op) := by
  cases op with
  | submit f m sz env => exact good_submit s f m sz env h
  | approve cid => exact good_approveRoute s cid h
  | reject cid => exact good_rejectRoute s cid h
  | update cid d e st od => exact good_patchRoute s cid _ h
  | finalize iid => exact good_finalizeRoute s iid h

theorem good_run : ∀ (ops : List Op) (s : Storage), StorageGood s → StorageGood (run s ops)
  | [], _, h => h
  | op :: ops, s, h => good_run ops (step s op) (good_step s op h)

theorem good_initial : StorageGood initialStorage := by
  constructor
  · intro inv hinv
    simp [initialStorage] at hinv
  · intro c hc
    simp [initialStorage] at hc

/-! ### Navigator lemmas -/

theorem findNextPendingAux_some {cursor : Nat} :
    ∀ {l : List ChStatus} {base j : Nat}, findNextPendingAux cursor l base = some j →
      base ≤ j ∧ cursor < j ∧ l[j - base]? = some ChStatus.pending ∧
      ∀ k, base ≤ k → cursor < k → l[k - base]? = some ChStatus.pending → j ≤ k := by
  intro l
  induction l with
  | nil =>
    intro base j h
    simp [findNextPendingAux] at h
  | cons st rest ih =>
    intro base j h
    rw [findNextPendingAux] at h
    by_cases hc : cursor < base ∧ st = ChStatus.pending
    · rw [if_pos hc] at h
      have hj : j = base := (Option.some.inj h).symm
      subst hj
      refine ⟨Nat.le_refl _, hc.1, ?_, ?_⟩
      · simp [hc.2]
      · intro k hk _ _
        exact hk
    · rw [if_neg hc] at h
      obtain ⟨hb, hcj, hat, hmin⟩ := ih h
      refine ⟨by omega, hcj, ?_, ?_⟩
      · have hidx : j - base = (j - (base + 1)) + 1 := by omega
        rw [hidx, List.getElem?_cons_succ]
        exact hat
      · intro k hk hck hpk
        rcases Nat.eq_or_lt_of_le hk with hk2 | hk2
        · exfalso
          subst hk2
          rw [Nat.sub_self, List.getElem?_cons_zero] at hpk
          exact hc ⟨hck, Option.some.inj hpk⟩
        · have hidx : k - base = (k - (base + 1)) + 1 := by omega
          rw [hidx, List.getElem?_cons_succ] at hpk
          exact hmin k (by omega) hck hpk

theorem findNextPendingAux_none {cursor : Nat} :
    ∀ {l : List ChStatus} {base : Nat}, findNextPendingAux cursor l base = none →
      ∀ k, base ≤ k → cursor < k → l[k - base]? ≠ some ChStatus.pending := by
  intro l
  induction l with
  | nil =>
    intro base _ k _ _
    simp
  | cons st rest ih =>
    intro base h k hk hck
    rw [findNextPendingAux] at h
    by_cases hc : cursor < base ∧ st = ChStatus.pending
    · rw [if_pos hc] at h
      exact Option.noConfusion h
    · rw [if_neg hc] at h
      rcases Nat.eq_or_lt_of_le hk with hk2 | hk2
      · subst hk2
        rw [Nat.sub_self, List.getElem?_cons_zero]
        intro hpk
        exact hc ⟨hck, Option.some.inj hpk⟩
      · have hidx : k - base = (k - (base + 1)) + 1 := by omega
        rw [hidx, List.getElem?_cons_succ]
        exact ih h k (by omega) hck

theorem findNextPending_some {statuses : List ChStatus} {cursor j : Nat}
    (h : findNextPending statuses cursor = some j) :
    cursor < j ∧ statuses[j]? = some ChStatus.pending ∧
      ∀ k, cursor < k → statuses[k]? = some ChStatus.pending → j ≤ k := by
  obtain ⟨_, hcj, hat, hmin⟩ := findNextPendingAux_some h
  refine ⟨hcj, by simpa using hat, ?_⟩
  intro k hck hpk
  exact hmin k (Nat.zero_le _) hck (by simpa using hpk)

theorem findNextPending_none {statuses : List ChStatus} {cursor : Nat}
    (h : findNextPending statuses cursor = none) :
    ∀ k, cursor < k → statuses[k]? ≠ some ChStatus.pending := by
  intro k hck
  have := findNextPendingAux_none h k (Nat.zero_le _) hck
  simpa using this

/-! ### Idempotence helpers -/

theorem recomputeStats_consistent (s : Storage) (invId : Nat)
    (hcons : ∀ inv, mapGet Invoice.id s.invoices invId = some inv →
      inv.approvedChunks = approvedCountOf s invId ∧
      inv.rejectedChunks = rejectedCountOf s invId) :
    recomputeStats s invId = s := by
  rw [recomputeStats]
  cases hg : mapGet Invoice.id s.invoices invId with
  | none =>
    rw [Storage.updateInvoice]
    simp only [hg]
  | some inv =>
    rw [Storage.updateInvoice]
    simp only [hg]
    obtain ⟨hA, hR⟩ := hcons inv hg
    have heq : applyInvoiceUpdates inv
        { approvedChunks := some (approvedCountOf s invId)
          rejectedChunks := some (rejectedCountOf s invId) } = inv := by
      rw [← hA, ← hR]
      rfl
    rw [heq, mapSet_found_self hg]

theorem mapGet_singleton_self {key : α → Nat} {x : α} {n : Nat} (hx : key x = n) :
    mapGet key [x] n = some x := by
  simp [mapGet, List.find?, hx]

/-! ### Claim theorems -/

/-- C1: For every document, calling finalize while at least one of its chunks
has status pending or editing fails with a validation error and changes no
document or chunk state; finalize succeeds whenever every chunk of the
document has status approved or rejected. -/
theorem c1_finalize_gate (s : Storage) (id : Nat) (inv : Invoice)
    (hinv : s.getInvoice id = some inv) :
    ((∃ c ∈ s.getChunksByInvoice id,
        c.status = ChStatus.pending ∨ c.status = ChStatus.editing) →
      finalizeInvoiceRoute s id = (FinalizeResult.validationError, s)) ∧
    ((∀ c ∈ s.getChunksByInvoice id,
        c.status = ChStatus.approved ∨ c.status = ChStatus.rejected) →
      ∃ inv2 s2, finalizeInvoiceRoute s id = (FinalizeResult.ok inv2, s2)) := by
  constructor
  · rintro ⟨c, hc, hst⟩
    have hall : ((s.getChunksByInvoice id).all
        (fun c => c.status != ChStatus.pending && c.status != ChStatus.editing)) = false := by
      apply List.all_eq_false.mpr
      refine ⟨c, hc, ?_⟩
      rcases hst with h | h <;> simp [h]
    rw [finalizeInvoiceRoute]
    simp only [hall, Bool.not_false, if_pos]
  · intro h2
    have hall : ((s.getChunksByInvoice id).all
        (fun c => c.status != ChStatus.pending && c.status != ChStatus.editing)) = true := by
      apply List.all_eq_true.mpr
      intro c hc
      rcases h2 c hc with h | h <;> simp [h]
    rw [finalizeInvoiceRoute]
    simp only [hall, Bool.not_true, Bool.false_eq_true, if_false]
    rw [updateInvoice_found hinv]
    exact ⟨_, _, rfl⟩

/-- C1 witness: on a document with one pending chunk, the gate instance
holds at a concrete input. -/
theorem c1_finalize_gate_witness :
    ((∃ c ∈ exStorage.getChunksByInvoice 0,
        c.status = ChStatus.pending ∨ c.status = ChStatus.editing) →
      finalizeInvoiceRoute exStorage 0 = (FinalizeResult.validationError, exStorage)) ∧
    ((∀ c ∈ exStorage.getChunksByInvoice 0,
        c.status = ChStatus.approved ∨ c.status = ChStatus.rejected) →
      ∃ inv2 s2, finalizeInvoiceRoute exStorage 0 = (FinalizeResult.ok inv2, s2)) :=
  c1_finalize_gate exStorage 0 exInvoice rfl

/-- C2: For every document on which finalize succeeds, the resulting final
status is rejected iff at least one of the document's chunks has status
rejected, and otherwise approved, and the document's status field is set to
that value. -/
theorem c2_finalize_outcome (s : Storage) (id : Nat) (inv2 : Invoice) (s2 : Storage)
    (h : finalizeInvoiceRoute s id = (FinalizeResult.ok inv2, s2)) :
    (inv2.status = InvStatus.rejected ↔
      ∃ c ∈ s.getChunksByInvoice id, c.status = ChStatus.rejected) ∧
    (¬ (∃ c ∈ s.getChunksByInvoice id, c.status = ChStatus.rejected) →
      inv2.status = InvStatus.approved) ∧
    s2.getInvoice id = some inv2 := by
  have hiff : ((s.getChunksByInvoice id).any
      (fun c => c.status == ChStatus.rejected)) = true ↔
      ∃ c ∈ s.getChunksByInvoice id, c.status = ChStatus.rejected := by
    rw [List.any_eq_true]
    constructor
    · rintro ⟨c, hc, hcs⟩
      exact ⟨c, hc, by simpa using hcs⟩
    · rintro ⟨c, hc, hcs⟩
      exact ⟨c, hc, by simpa using hcs⟩
  rw [finalizeInvoiceRoute] at h
  by_cases hall : ((s.getChunksByInvoice id).all
      (fun c => c.status != ChStatus.pending && c.status != ChStatus.editing)) = true
  · rw [hall] at h
    simp only [Bool.not_true, Bool.false_eq_true, if_false] at h
    cases hup : mapGet Invoice.id s.invoices id with
    | none =>
      rw [Storage.updateInvoice] at h
      simp only [hup] at h
      exact absurd (congrArg Prod.fst h) (by simp)
    | some inv =>
      rw [updateInvoice_found hup] at h
      dsimp only at h
      rw [Prod.mk.injEq] at h
      obtain ⟨h1, h2⟩ := h
      have hinv2 : inv2 = applyInvoiceUpdates inv
          { status := some (if (s.getChunksByInvoice id).any
              (fun c => c.status == ChStatus.rejected) then InvStatus.rejected
            else InvStatus.approved) } := (FinalizeResult.ok.inj h1).symm
      subst hinv2
      subst h2
      refine ⟨?_, ?_, ?_⟩
      · by_cases hrej : ((s.getChunksByInvoice id).any
            (fun c => c.status == ChStatus.rejected)) = true
        · have hst : (applyInvoiceUpdates inv
              { status := some (if (s.getChunksByInvoice id).any
                  (fun c => c.status == ChStatus.rejected) then InvStatus.rejected
                else InvStatus.approved) }).status = InvStatus.rejected := by
            simp [applyInvoiceUpdates, hrej]
          rw [hst]
          simp only [true_iff]
          exact hiff.mp hrej
        · have hrf : ((s.getChunksByInvoice id).any
              (fun c => c.status == ChStatus.rejected)) = false := by
            cases hx : ((s.getChunksByInvoice id).any
                (fun c => c.status == ChStatus.rejected)) with
            | false => rfl
            | true => exact absurd hx hrej
          have hst : (applyInvoiceUpdates inv
              { status := some (if (s.getChunksByInvoice id).any
                  (fun c => c.status == ChStatus.rejected) then InvStatus.rejected
                else InvStatus.approved) }).status = InvStatus.approved := by
            simp [applyInvoiceUpdates, hrf]
          rw [hst]
          constructor
          · intro habs
            exact absurd habs (by simp)
          · intro hex
            exact absurd (hiff.mpr hex) hrej
      · intro hnone
        have hrf : ((s.getChunksByInvoice id).any
            (fun c => c.status == ChStatus.rejected)) = false := by
          cases hx : ((s.getChunksByInvoice id).any
              (fun c => c.status == ChStatus.rejected)) with
          | false => rfl
          | true => exact absurd (hiff.mp hx) hnone
        simp [applyInvoiceUpdates, hrf]
      · show mapGet Invoice.id (mapSet Invoice.id s.invoices id _) id = some _
        refine mapGet_mapSet_self ?_ hup
        rw [applyInvoiceUpdates_id]
        exact mapGet_key hup
  · have hall2 : ((s.getChunksByInvoice id).all
        (fun c => c.status != ChStatus.pending && c.status != ChStatus.editing)) = false := by
      cases hx : ((s.getChunksByInvoice id).all
          (fun c => c.status != ChStatus.pending && c.status != ChStatus.editing)) with
      | false => rfl
      | true => exact absurd hx hall
    rw [hall2] at h
    simp only [Bool.not_false, if_pos] at h
    exact absurd (congrArg Prod.fst h) (by simp)

/-- C2 witness: finalize on a chunkless processing document succeeds with
status approved and no rejected chunk exists, instantiating the outcome law. -/
theorem c2_finalize_outcome_witness :
    (({ exInvoiceP with status := InvStatus.approved } : Invoice).status = InvStatus.rejected ↔
      ∃ c ∈ exStorageP.getChunksByInvoice 0, c.status = ChStatus.rejected) ∧
    (¬ (∃ c ∈ exStorageP.getChunksByInvoice 0, c.status = ChStatus.rejected) →
      ({ exInvoiceP with status := InvStatus.approved } : Invoice).status = InvStatus.approved) ∧
    ({ exStorageP with invoices := [{ exInvoiceP with status := InvStatus.approved }] } :
        Storage).getInvoice 0 = some { exInvoiceP with status := InvStatus.approved } :=
  c2_finalize_outcome exStorageP 0 { exInvoiceP with status := InvStatus.approved }
    { exStorageP with invoices := [{ exInvoiceP with status := InvStatus.approved }] } rfl

/-- C10: For every document id whose chunk set is empty, finalize's
all-reviewed precondition holds vacuously and the call succeeds, setting the
document's status to approved. -/
theorem c10_finalize_empty (s : Storage) (id : Nat) (inv : Invoice)
    (hinv : s.getInvoice id = some inv)
    (hempty : s.getChunksByInvoice id = []) :
    ∃ inv2 s2, finalizeInvoiceRoute s id = (FinalizeResult.ok inv2, s2) ∧
      inv2.status = InvStatus.approved ∧
      s2.getInvoice id = some inv2 := by
  rw [finalizeInvoiceRoute, hempty]
  simp only [List.any_nil, List.all_nil, Bool.not_true, Bool.false_eq_true, if_false]
  rw [updateInvoice_found hinv]
  refine ⟨_, _, rfl, rfl, ?_⟩
  show mapGet Invoice.id (mapSet Invoice.id s.invoices id _) id = some _
  refine mapGet_mapSet_self ?_ hinv
  rw [applyInvoiceUpdates_id]
  exact mapGet_key hinv

/-- C10 witness: at a concrete processing document with no chunks, finalize
succeeds and marks it approved. -/
theorem c10_finalize_empty_witness :
    ∃ inv2 s2, finalizeInvoiceRoute exStorageP 0 = (FinalizeResult.ok inv2, s2) ∧
      inv2.status = InvStatus.approved ∧
      s2.getInvoice 0 = some inv2 :=
  c10_finalize_empty exStorageP 0 exInvoiceP rfl rfl

/-- C3: For every submitted document, if any error occurs at any stage of
the background pipeline run (encoding failure, extraction API failure, or a
malformed extraction result with a missing or non-sequence chunk list), the
run aborts with the document set to status rejected and processingProgress
0, and no partial chunk set is left behind: the chunk store is exactly as
before the run and the document owns zero chunks. -/
theorem c3_pipeline_failure_atomic (s : Storage) (f m : String) (sz : Nat)
    (env : PipelineEnv) (hWF : s.WF)
    (hfail : ¬ ∃ b p, env.convert = ConvertOutcome.ok b ∧
      parseInvoiceWithVision env.visionRaw = Except.ok p) :
    ((processUploadedFile s f m sz env).2.1).chunks = s.chunks ∧
    ((processUploadedFile s f m sz env).2.1).getChunksByInvoice
      (processUploadedFile s f m sz env).1 = [] ∧
    ∃ inv, ((processUploadedFile s f m sz env).2.1).getInvoice
        (processUploadedFile s f m sz env).1 = some inv ∧
      inv.status = InvStatus.rejected ∧
      inv.processingProgress = 0 := by
  obtain ⟨hWFi, hWFc⟩ := hWF
  have hstate := submit_fail_state s f m sz env hWFi hfail
  have hid : (processUploadedFile s f m sz env).1 = s.nextId := rfl
  rw [hid, hstate]
  refine ⟨rfl, ?_, ?_⟩
  · show ((s.chunks.filter (fun c => c.invoiceId == s.nextId)).insertionSort seqLe) = []
    have hz : s.chunks.filter (fun c => c.invoiceId == s.nextId) = [] := by
      rw [List.filter_eq_nil_iff]
      intro c hc
      simpa using Nat.ne_of_lt (hWFc c hc)
    rw [hz]
    rfl
  · refine ⟨failedRunInvoice s.nextId f m sz, ?_, rfl, rfl⟩
    show mapGet Invoice.id (s.invoices ++ [failedRunInvoice s.nextId f m sz]) s.nextId =
      some (failedRunInvoice s.nextId f m sz)
    rw [mapGet_append_fresh (fun y hy => Nat.ne_of_lt (hWFi y hy))]
    exact mapGet_singleton_self rfl

/-- C3 witness: a submission whose encoding step fails leaves a rejected
document at progress 0 and no chunks. -/
theorem c3_pipeline_failure_atomic_witness :
    ((processUploadedFile initialStorage "invoice.pdf" "application/pdf" 4 exEnvFail).2.1).chunks =
      initialStorage.chunks ∧
    ((processUploadedFile initialStorage "invoice.pdf" "application/pdf" 4
        exEnvFail).2.1).getChunksByInvoice
      (processUploadedFile initialStorage "invoice.pdf" "application/pdf" 4 exEnvFail).1 = [] ∧
    ∃ inv, ((processUploadedFile initialStorage "invoice.pdf" "application/pdf" 4
        exEnvFail).2.1).getInvoice
        (processUploadedFile initialStorage "invoice.pdf" "application/pdf" 4 exEnvFail).1 =
          some inv ∧
      inv.status = InvStatus.rejected ∧
      inv.processingProgress = 0 :=
  c3_pipeline_failure_atomic initialStorage "invoice.pdf" "application/pdf" 4 exEnvFail
    (by constructor <;> intro x hx <;> simp [initialStorage] at hx)
    (by
      rintro ⟨b, p, hconv, _⟩
      simp [exEnvFail] at hconv)

/-- C4: For every submitted document whose background run succeeds, the
document's processingProgress passes through the checkpoints 10, 25, 50, 75,
100 in that order, and the final state has status ready_for_review,
processingProgress 100, extractedText set, totalChunks equal to the number
of extraction result entries, and approvedChunks = rejectedChunks = 0. -/
theorem c4_pipeline_success_checkpoints (s : Storage) (f m : String) (sz : Nat)
    (env : PipelineEnv) (b : String) (raw : RawVisionResult) (cs : List ExtractedChunk)
    (hWF : s.WF)
    (hconv : env.convert = ConvertOutcome.ok b)
    (hraw : env.visionRaw = some raw)
    (hcs : raw.chunksField = RawChunksField.arr cs) :
    (processUploadedFile s f m sz env).2.2 = [10, 25, 50, 75, 100] ∧
    ∃ inv, ((processUploadedFile s f m sz env).2.1).getInvoice
        (processUploadedFile s f m sz env).1 = some inv ∧
      inv.status = InvStatus.ready_for_review ∧
      inv.processingProgress = 100 ∧
      inv.extractedText = some (raw.extractedText.getD "") ∧
      inv.totalChunks = cs.length ∧
      inv.approvedChunks = 0 ∧
      inv.rejectedChunks = 0 := by
  obtain ⟨hWFi, hWFc⟩ := hWF
  have hparse : parseInvoiceWithVision env.visionRaw =
      Except.ok { chunks := cs, extractedText := some (raw.extractedText.getD "") } := by
    rw [hraw, parseInvoiceWithVision, hcs]
  obtain ⟨hstate, htrace⟩ := submit_success_state s f m sz env
    { chunks := cs, extractedText := some (raw.extractedText.getD "") } b hWFi hconv hparse
  have hid : (processUploadedFile s f m sz env).1 = s.nextId := rfl
  rw [hid, hstate]
  refine ⟨htrace, readyInvoice s.nextId f m sz
    { chunks := cs, extractedText := some (raw.extractedText.getD "") }, ?_, rfl, rfl, rfl, rfl,
    rfl, rfl⟩
  show mapGet Invoice.id (s.invoices ++ [readyInvoice s.nextId f m sz _]) s.nextId = some _
  rw [mapGet_append_fresh (fun y hy => Nat.ne_of_lt (hWFi y hy))]
  exact mapGet_singleton_self rfl

/-- C4 witness: a submission extracting one chunk traces the checkpoints and
lands in the documented final state. -/
theorem c4_pipeline_success_checkpoints_witness :
    (processUploadedFile initialStorage "invoice.png" "image/png" 4 exEnvOk).2.2 =
      [10, 25, 50, 75, 100] ∧
    ∃ inv, ((processUploadedFile initialStorage "invoice.png" "image/png" 4
        exEnvOk).2.1).getInvoice
        (processUploadedFile initialStorage "invoice.png" "image/png" 4 exEnvOk).1 = some inv ∧
      inv.status = InvStatus.ready_for_review ∧
      inv.processingProgress = 100 ∧
      inv.extractedText = some (exRaw.extractedText.getD "") ∧
      inv.totalChunks = [exEntry].length ∧
      inv.approvedChunks = 0 ∧
      inv.rejectedChunks = 0 :=
  c4_pipeline_success_checkpoints initialStorage "invoice.png" "image/png" 4 exEnvOk
    "base64data" exRaw [exEntry]
    (by constructor <;> intro x hx <;> simp [initialStorage] at hx)
    rfl rfl rfl

/-- C5: For every successful pipeline run, chunk creation processes the
extraction result entries in the order returned, assigning each chunk
sequenceNumber equal to its 1-based position, copying type, title, data,
boundingBox and confidence verbatim, and setting status pending, isEdited
false and originalData absent. -/
theorem c5_chunk_creation (s : Storage) (f m : String) (sz : Nat)
    (env : PipelineEnv) (b : String) (raw : RawVisionResult) (cs : List ExtractedChunk)
    (hWF : s.WF)
    (hconv : env.convert = ConvertOutcome.ok b)
    (hraw : env.visionRaw = some raw)
    (hcs : raw.chunksField = RawChunksField.arr cs) :
    (((processUploadedFile s f m sz env).2.1).getChunksByInvoice
        (processUploadedFile s f m sz env).1).length = cs.length ∧
    ∀ i e, cs[i]? = some e →
      ∃ c, (((processUploadedFile s f m sz env).2.1).getChunksByInvoice
          (processUploadedFile s f m sz env).1)[i]? = some c ∧
        c.sequenceNumber = i + 1 ∧
        c.chunkType = e.type ∧
        c.title = e.title ∧
        c.extractedData = e.data ∧
        c.boundingBox = e.boundingBox ∧
        c.confidence = e.confidence ∧
        c.status = ChStatus.pending ∧
        c.isEdited = false ∧
        c.originalData = none := by
  obtain ⟨hWFi, hWFc⟩ := hWF
  have hparse : parseInvoiceWithVision env.visionRaw =
      Except.ok { chunks := cs, extractedText := some (raw.extractedText.getD "") } := by
    rw [hraw, parseInvoiceWithVision, hcs]
  obtain ⟨hstate, _⟩ := submit_success_state s f m sz env
    { chunks := cs, extractedText := some (raw.extractedText.getD "") } b hWFi hconv hparse
  have hid : (processUploadedFile s f m sz env).1 = s.nextId := rfl
  rw [hid, hstate]
  have hbatchMem : ∀ d ∈ createdBatchFrom s.nextId (s.nextId + 1) 0 cs,
      d.invoiceId = s.nextId := fun d hd => mem_createdBatchFrom_invoiceId hd
  have hchunksEq : (Storage.mk
        (s.invoices ++ [readyInvoice s.nextId f m sz
          { chunks := cs, extractedText := some (raw.extractedText.getD "") }])
        (s.chunks ++ createdBatchFrom s.nextId (s.nextId + 1) 0 cs)
        (s.nextId + 1 + cs.length)).getChunksByInvoice s.nextId =
      createdBatchFrom s.nextId (s.nextId + 1) 0 cs := by
    show ((s.chunks ++ createdBatchFrom s.nextId (s.nextId + 1) 0 cs).filter
      (fun c => c.invoiceId == s.nextId)).insertionSort seqLe = _
    rw [List.filter_append]
    have hz : s.chunks.filter (fun c => c.invoiceId == s.nextId) = [] := by
      rw [List.filter_eq_nil_iff]
      intro c hc
      simpa using Nat.ne_of_lt (hWFc c hc)
    have hfull : (createdBatchFrom s.nextId (s.nextId + 1) 0 cs).filter
        (fun c => c.invoiceId == s.nextId) = createdBatchFrom s.nextId (s.nextId + 1) 0 cs := by
      rw [List.filter_eq_self]
      intro c hc
      simpa using hbatchMem c hc
    rw [hz, hfull, List.nil_append]
    exact (createdBatchFrom_sorted s.nextId cs (s.nextId + 1) 0).insertionSort_eq
  rw [hchunksEq]
  constructor
  · exact createdBatchFrom_length s.nextId cs (s.nextId + 1) 0
  · intro i e he
    refine ⟨mkCreatedChunk s.nextId (s.nextId + 1 + i) (0 + i + 1) e, ?_, ?_, rfl, rfl, rfl,
      rfl, rfl, rfl, rfl, rfl⟩
    · exact createdBatchFrom_getElem s.nextId cs (s.nextId + 1) 0 i e he
    · show 0 + i + 1 = i + 1
      omega

/-- C5 witness: the single extracted entry becomes the single stored chunk
with sequence number 1 and fields copied verbatim. -/
theorem c5_chunk_creation_witness :
    (((processUploadedFile initialStorage "invoice.png" "image/png" 4 exEnvOk).2.1).getChunksByInvoice
        (processUploadedFile initialStorage "invoice.png" "image/png" 4 exEnvOk).1).length =
      [exEntry].length ∧
    ∀ i e, [exEntry][i]? = some e →
      ∃ c, (((processUploadedFile initialStorage "invoice.png" "image/png" 4
          exEnvOk).2.1).getChunksByInvoice
          (processUploadedFile initialStorage "invoice.png" "image/png" 4 exEnvOk).1)[i]? =
            some c ∧
        c.sequenceNumber = i + 1 ∧
        c.chunkType = e.type ∧
        c.title = e.title ∧
        c.extractedData = e.data ∧
        c.boundingBox = e.boundingBox ∧
        c.confidence = e.confidence ∧
        c.status = ChStatus.pending ∧
        c.isEdited = false ∧
        c.originalData = none :=
  c5_chunk_creation initialStorage "invoice.png" "image/png" 4 exEnvOk
    "base64data" exRaw [exEntry]
    (by constructor <;> intro x hx <;> simp [initialStorage] at hx)
    rfl rfl rfl

/-- C6: For every document, at every observable point of every operation
sequence (submit, approve, reject, update, finalize), the invariant
approvedChunks + rejectedChunks ≤ totalChunks holds. -/
theorem c6_counts_invariant (ops : List Op) : DocCountInvariant (run initialStorage ops) := by
  have hg := good_run ops initialStorage good_initial
  intro inv hinv
  exact (hg.1 inv hinv).2.2

/-- C7: Approving a chunk that already has status approved is idempotent:
the chunk's status is unchanged and the owning document's approvedChunks and
rejectedChunks counts are unchanged (here: the whole storage is unchanged,
given the counts were consistent with the chunk set as the routes maintain
them); symmetrically for rejecting an already-rejected chunk. -/
theorem c7_approve_reject_idempotent (s : Storage) (cid : Nat) (c : Chunk)
    (hfind : mapGet Chunk.id s.chunks cid = some c)
    (hcons : ∀ inv, s.getInvoice c.invoiceId = some inv →
      inv.approvedChunks = approvedCountOf s c.invoiceId ∧
      inv.rejectedChunks = rejectedCountOf s c.invoiceId) :
    (c.status = ChStatus.approved → approveChunkRoute s cid = (some c, s)) ∧
    (c.status = ChStatus.rejected → rejectChunkRoute s cid = (some c, s)) := by
  have hrecomp : recomputeStats s c.invoiceId = s := recomputeStats_consistent s c.invoiceId hcons
  constructor
  · intro hst
    have hc2 : ({ c with status := ChStatus.approved } : Chunk) = c := by
      rw [← hst]
    rw [approveChunkRoute, updateChunkStatus_found hfind, hc2, mapSet_found_self hfind]
    show (some c, recomputeStats { s with chunks := s.chunks } c.invoiceId) = (some c, s)
    rw [show ({ s with chunks := s.chunks } : Storage) = s from rfl, hrecomp]
  · intro hst
    have hc2 : ({ c with status := ChStatus.rejected } : Chunk) = c := by
      rw [← hst]
    rw [rejectChunkRoute, updateChunkStatus_found hfind, hc2, mapSet_found_self hfind]
    show (some c, recomputeStats { s with chunks := s.chunks } c.invoiceId) = (some c, s)
    rw [show ({ s with chunks := s.chunks } : Storage) = s from rfl, hrecomp]

/-- C7 witness: re-approving the already-approved chunk of a consistent
document leaves chunk and storage unchanged. -/
theorem c7_approve_reject_idempotent_witness :
    (exChunkA.status = ChStatus.approved →
      approveChunkRoute exStorageA 1 = (some exChunkA, exStorageA)) ∧
    (exChunkA.status = ChStatus.rejected →
      rejectChunkRoute exStorageA 1 = (some exChunkA, exStorageA)) :=
  c7_approve_reject_idempotent exStorageA 1 exChunkA rfl
    (by
      intro inv hinv
      have hinv2 : inv = exInvoiceA := by
        have h2 : some exInvoiceA = some inv := hinv
        exact (Option.some.inj h2).symm
      subst hinv2
      constructor <;> decide)

/-- C8: the save-edit path as the code implements it.  At a first edit of a
chunk whose originalData is absent, the operation writes the new
extractedData, sets isEdited true and status pending, but leaves
originalData absent — it never captures the pre-edit snapshot the
specification mandates. -/
theorem c8_save_edit_code_behavior :
    ∃ c, (patchChunkRoute exStorage 1 (saveEditPayload [("vendor", "Emca")])).1 = some c ∧
      c.extractedData = [("vendor", "Emca")] ∧
      c.isEdited = true ∧
      c.status = ChStatus.pending ∧
      c.originalData = none ∧
      ¬ c.originalData = some exChunk.extractedData := by
  refine ⟨applyChunkUpdates exChunk (saveEditPayload [("vendor", "Emca")]), ?_, rfl, rfl, rfl,
    rfl, by simp [applyChunkUpdates, saveEditPayload, exChunk]⟩
  rw [patchChunkRoute,
    updateChunk_found (show mapGet Chunk.id exStorage.chunks 1 = some exChunk from rfl)]

/-- C9 counterexample: with the single chunk already approved and the cursor
on it, the approve-current command invokes no chunk transition at all,
contradicting the claim that the transition is always invoked on the chunk
at the cursor. -/
theorem c9_navigator_counterexample :
    ¬ NavEffect.approveAct 0 ∈ (handleKeyDown [ChStatus.approved] 0 Key.enter).1 := by
  decide

/-- C9 (amended): the approve-current and reject-current commands, when the
chunk at the cursor has status pending, invoke the corresponding transition
on it and advance the cursor to the next chunk with status pending strictly
after the current index (no wraparound; the cursor stays put when none
exists); when the chunk at the cursor is not pending, no transition is
invoked and the cursor stays put. -/
theorem c9_navigator_amended (statuses : List ChStatus) (cursor : Nat) (c : ChStatus)
    (hc : statuses[cursor]? = some c) :
    (c = ChStatus.pending →
      (handleKeyDown statuses cursor Key.enter).1 = [NavEffect.approveAct cursor] ∧
      (handleKeyDown statuses cursor Key.keyR).1 = [NavEffect.rejectAct cursor] ∧
      (handleKeyDown statuses cursor Key.enter).2 = (handleKeyDown statuses cursor Key.keyR).2 ∧
      ((∃ j, cursor < j ∧ statuses[j]? = some ChStatus.pending) →
        cursor < (handleKeyDown statuses cursor Key.enter).2 ∧
        statuses[(handleKeyDown statuses cursor Key.enter).2]? = some ChStatus.pending ∧
        ∀ k, cursor < k → statuses[k]? = some ChStatus.pending →
          (handleKeyDown statuses cursor Key.enter).2 ≤ k) ∧
      ((∀ j, cursor < j → statuses[j]? ≠ some ChStatus.pending) →
        (handleKeyDown statuses cursor Key.enter).2 = cursor)) ∧
    (¬ c = ChStatus.pending →
      handleKeyDown statuses cursor Key.enter = ([], cursor) ∧
      handleKeyDown statuses cursor Key.keyR = ([], cursor)) := by
  constructor
  · intro hcp
    subst hcp
    cases hfp : findNextPending statuses cursor with
    | some j =>
      have heq1 : handleKeyDown statuses cursor Key.enter =
          ([NavEffect.approveAct cursor], j) := by
        simp [handleKeyDown, hc, hfp]
      have heq2 : handleKeyDown statuses cursor Key.keyR =
          ([NavEffect.rejectAct cursor], j) := by
        simp [handleKeyDown, hc, hfp]
      obtain ⟨hcj, hat, hmin⟩ := findNextPending_some hfp
      rw [heq1, heq2]
      refine ⟨rfl, rfl, rfl, ?_, ?_⟩
      · intro _
        exact ⟨hcj, hat, hmin⟩
      · intro hnone
        exact absurd hat (hnone j hcj)
    | none =>
      have heq1 : handleKeyDown statuses cursor Key.enter =
          ([NavEffect.approveAct cursor], cursor) := by
        simp [handleKeyDown, hc, hfp]
      have heq2 : handleKeyDown statuses cursor Key.keyR =
          ([NavEffect.rejectAct cursor], cursor) := by
        simp [handleKeyDown, hc, hfp]
      rw [heq1, heq2]
      refine ⟨rfl, rfl, rfl, ?_, ?_⟩
      · rintro ⟨j, hcj, hat⟩
        exact absurd hat (findNextPending_none hfp j hcj)
      · intro _
        rfl
  · intro hcn
    constructor
    · simp [handleKeyDown, hc, hcn]
    · simp [handleKeyDown, hc, hcn]

/-- C9 witness: on statuses [pending, approved, pending, rejected] with the
cursor at 0, approving invokes the transition on chunk 0 (the spec's own
example). -/
theorem c9_navigator_amended_witness :
    (handleKeyDown [ChStatus.pending, ChStatus.approved, ChStatus.pending, ChStatus.rejected]
      0 Key.enter).1 = [NavEffect.approveAct 0] :=
  ((c9_navigator_amended
    [ChStatus.pending, ChStatus.approved, ChStatus.pending, ChStatus.rejected]
    0 ChStatus.pending rfl).1 rfl).1

end DocParser
